import Mathlib

/-!
Verification of the repository's static-extraction and graph-derivation
pipeline (`static_parser.py`, `semantic_inference.py`, `graph_builder.py`)
against its natural-language specification.

The Python sources are shallowly embedded: every function below mirrors the
control flow of the correspondingly named Python function.  External
dependencies that are not code of this repository are modelled as explicit
inputs: CPython's `ast.parse`/`ast.walk`/`ast.get_docstring` become an
`Option (List PyNode)` / `Option String` argument (`none` models a
`SyntaxError` / absent docstring), the regex-based extractors for
JavaScript/React/generic languages (built on the external `re` engine) and
the Graphviz rendering toolchain become function parameters, so the theorems
hold for every behaviour of those collaborators.
-/

namespace RepoIntel

/-! ### Python string primitives

The Python `str` operations the sources use, implemented structurally over
`List Char` so that every definition evaluates by kernel reduction.
-/

/-- Whether `needle` occurs as a contiguous sublist of `hay`. -/
def containsSublist (needle : List Char) : List Char → Bool
  | [] => needle.isEmpty
  | c :: t => needle.isPrefixOf (c :: t) || containsSublist needle t

/-- Python's substring test `needle in hay`. -/
def pyIn (needle hay : String) : Bool :=
  containsSublist needle.toList hay.toList

/-- Python's `s.startswith(pre)`. -/
def pyStartsWith (s pre : String) : Bool :=
  pre.toList.isPrefixOf s.toList

/-- Python's `s.endswith(suf)`. -/
def pyEndsWith (s suf : String) : Bool :=
  suf.toList.isSuffixOf s.toList

/-- Python's `s.lower()` (ASCII range, as used by the sources). -/
def pyLower (s : String) : String :=
  String.mk (s.toList.map Char.toLower)

/-- Python's `s.upper()` (ASCII range, as used by the sources). -/
def pyUpper (s : String) : String :=
  String.mk (s.toList.map Char.toUpper)

/-- Whitespace for Python's `str.strip()`. -/
def isPyWhitespace (c : Char) : Bool :=
  c = ' ' || c = '\t' || c = '\n' || c = '\r' || c = '\x0b' || c = '\x0c'

/-- Python's `s.strip()`. -/
def pyStrip (s : String) : String :=
  String.mk (((s.toList.dropWhile isPyWhitespace).reverse.dropWhile isPyWhitespace).reverse)

/-- Python's `s[:n]`. -/
def pyTake (s : String) (n : Nat) : String :=
  String.mk (s.toList.take n)

/-- Python's `s[n:]`. -/
def pyDrop (s : String) (n : Nat) : String :=
  String.mk (s.toList.drop n)

/-- Drop the last `n` characters of `s` (`name[: -len(ext)]`). -/
def pyDropRight (s : String) (n : Nat) : String :=
  String.mk (s.toList.take (s.toList.length - n))

/-- Python's single-character `s.replace(old, new)` (the sources only replace
the one-character separators "/" and "\\"). -/
def pyReplaceChar (old new : Char) (s : String) : String :=
  String.mk (s.toList.map fun c => if c = old then new else c)

/-- Accumulator pass for `pySplitChar`. -/
def pySplitCharAux (sep : Char) : List Char → List Char → List String
  | [], cur => [String.mk cur.reverse]
  | c :: cs, cur =>
    if c = sep then String.mk cur.reverse :: pySplitCharAux sep cs []
    else pySplitCharAux sep cs (c :: cur)

/-- Python's `s.split(sep)` for a one-character separator (the sources split
only on ".", "/" and a newline).  `"".split(sep) = [""]` as in Python. -/
def pySplitChar (sep : Char) (s : String) : List String :=
  pySplitCharAux sep s.toList []

/-- Python's `sep.join(parts)`. -/
def pyJoin (sep : String) : List String → String
  | [] => ""
  | [x] => x
  | x :: y :: xs => x ++ sep ++ pyJoin sep (y :: xs)

/-- First-occurrence deduplication.  Models `list(set(x))` / dict-key
collection where the sources rely on the elements, not on CPython's
unspecified set iteration order (no theorem below depends on the order of a
`list(set(...))` value). -/
def dedupFirst (l : List String) : List String :=
  l.foldl (fun acc x => if x ∈ acc then acc else acc ++ [x]) []

/-! ### Data model

`FileAnalysis` is the per-file record the extractors build (`static_parser.py`);
absent dict keys are modelled by the `:= []` / `none` defaults that
`dict.get` supplies at every use site.
-/

/-- A class record (`result["classes"]` entry of `parse_python`). -/
structure ClassRec where
  name : String
  bases : List String
  decorators : List String
  line : Nat
deriving DecidableEq

/-- A function record (`result["functions"]` entry).  The grammar-based
extractor fills every field; the lexical extractors fill `name` and
`description` and the remaining fields keep their defaults (absent dict
keys read through `dict.get`). -/
structure FuncRec where
  name : String
  decorators : List String := []
  is_async : Bool := false
  line : Nat := 0
  description : String := ""
deriving DecidableEq

/-- A route record.  `parse_python` fills `function`, `decorator` and `line`;
`parse_javascript` fills `method` and `path`; the graph builder adds `file`. -/
structure RouteRec where
  method : Option String := none
  path : Option String := none
  decorator : Option String := none
  function : Option String := none
  line : Option Nat := none
  file : Option String := none
deriving DecidableEq

/-- The per-file analysis record. -/
structure FileAnalysis where
  file_path : String
  language : String
  classes : List ClassRec := []
  functions : List FuncRec := []
  components : List String := []
  imports : List String := []
  routes : List RouteRec := []
  decorators : List String := []
  react_hooks : List String := []
deriving DecidableEq

/-! ### The Python AST fragment `parse_python` inspects

CPython's `ast` module is external to the repository; the fragment of its
node language that `parse_python` pattern-matches on is embedded below, and
`ast.parse` composed with `ast.walk` is modelled as an oracle argument of
type `Option (List PyNode)` (`none` = `SyntaxError`, `some nodes` = the walk
sequence of the parsed tree).
-/

/-- Expressions appearing as class bases and decorators. -/
inductive PyExpr where
  | name (id : String)
  | attr (value : PyExpr) (attr : String)
  | call (func : PyExpr)
  | otherExpr
deriving DecidableEq

/-- CPython's `ast.dump` on the expression fragment above, for Load-context
nodes as produced by parsing (the sources apply it only to `Name` and
`Attribute` nodes; `call`/`otherExpr` renderings are placeholders for the
argument lists the fragment does not carry). -/
def astDump : PyExpr → String
  | .name i => "Name(id='" ++ i ++ "', ctx=Load())"
  | .attr v a => "Attribute(value=" ++ astDump v ++ ", attr='" ++ a ++ "', ctx=Load())"
  | .call f => "Call(func=" ++ astDump f ++ ", args=[], keywords=[])"
  | .otherExpr => "Expr()"

/-- The statement/node fragment `parse_python`'s walk loop distinguishes.
`docstring` carries `ast.get_docstring(node)` (external helper, modelled as
data on the node); `isAsync` distinguishes `AsyncFunctionDef`. -/
inductive PyNode where
  | classDef (name : String) (bases : List PyExpr) (decorator_list : List PyExpr) (lineno : Nat)
  | functionDef (name : String) (decorator_list : List PyExpr) (lineno : Nat)
      (docstring : Option String) (isAsync : Bool)
  | importStmt (names : List String)
  | importFrom (module : Option String) (names : List String)
  | otherNode
deriving DecidableEq

/-! ### `static_parser.py` — the grammar-based (Python) extractor -/

/-- `_get_decorator_string`: the attribute components collected innermost
first, the base `Name` id appended when the chain ends in one, then reversed
and joined with dots. -/
def decoratorParts : PyExpr → List String
  | .attr v a => decoratorParts v ++ [a]
  | .name i => [i]
  | _ => []

/-- `_get_decorator_string(node)`: flatten an attribute chain to a dotted
string. -/
def _get_decorator_string (e : PyExpr) : String :=
  pyJoin "." (decoratorParts e)

/-- Base-class extraction of `parse_python` (lines 36–41): a `Name` base is
recorded by id, an `Attribute` base is recorded as `ast.dump(base)`; other
base expressions are skipped. -/
def classBases (bases : List PyExpr) : List String :=
  bases.filterMap fun b =>
    match b with
    | .name i => some i
    | .attr v a => some (astDump (.attr v a))
    | _ => none

/-- Class-decorator extraction of `parse_python` (lines 42–52). -/
def classDecorators (decs : List PyExpr) : List String :=
  decs.filterMap fun d =>
    match d with
    | .name i => some i
    | .attr v a => some (astDump (.attr v a))
    | .call f =>
      match f with
      | .name i => some i
      | .attr v a => some (astDump (.attr v a))
      | _ => none
    | _ => none

/-- Function-decorator extraction of `parse_python` (lines 63–74): `Name` by
id, `Call` of a `Name` by the called id, `Attribute` and `Call` of an
`Attribute` through `_get_decorator_string`. -/
def funcDecorators (decs : List PyExpr) : List String :=
  decs.filterMap fun d =>
    match d with
    | .name i => some i
    | .attr v a => some (_get_decorator_string (.attr v a))
    | .call f =>
      match f with
      | .name i => some i
      | .attr v a => some (_get_decorator_string (.attr v a))
      | _ => none
    | _ => none

/-- The fixed method-marker substrings of the route classification step. -/
def routeMarkers : List String :=
  [".get", ".post", ".put", ".delete", ".patch", ".route"]

/-- `any(method in dec_str.lower() for method in (...))` (lines 92–94). -/
def isRouteDecorator (dec_str : String) : Bool :=
  routeMarkers.any fun m => pyIn m (pyLower dec_str)

/-- Docstring post-processing (lines 77–87): strip, first line, first 200
characters; an absent docstring yields `""`. -/
def firstLineDoc (doc : Option String) : String :=
  pyTake (((pySplitChar '\n' (pyStrip (doc.getD ""))).headD "")) 200

/-- One iteration of `parse_python`'s `for node in ast.walk(tree)` loop. -/
def parsePyNode (r : FileAnalysis) (n : PyNode) : FileAnalysis :=
  match n with
  | .classDef name bases decs line =>
    { r with classes := r.classes ++
        [{ name := name, bases := classBases bases,
           decorators := classDecorators decs, line := line }] }
  | .functionDef name decs line doc isAsync =>
    let ds := funcDecorators decs
    { r with
        functions := r.functions ++
          [{ name := name, decorators := ds, is_async := isAsync,
             line := line, description := firstLineDoc doc }],
        decorators := r.decorators ++ ds,
        routes := r.routes ++
          (ds.filter isRouteDecorator).map fun d =>
            { function := some name, decorator := some d, line := some line } }
  | .importStmt names => { r with imports := r.imports ++ names }
  | .importFrom m names =>
    { r with imports := r.imports ++ names.map fun a => (m.getD "") ++ "." ++ a }
  | .otherNode => r

/-- `parse_python(content, file_path)`.  `ast_walk` is the outcome of
`ast.parse` composed with `ast.walk` on the content: `none` models the
`SyntaxError` branch (lines 28–31), which returns the freshly initialised
all-empty result; `some nodes` drives the walk loop.  The function is total:
no input makes it raise. -/
def parse_python (ast_walk : Option (List PyNode)) (file_path : String) : FileAnalysis :=
  let result : FileAnalysis := { file_path := file_path, language := "Python" }
  match ast_walk with
  | none => result
  | some nodes =>
    let r := nodes.foldl parsePyNode result
    { r with decorators := dedupFirst r.decorators }

/-! ### `static_parser.py` — dispatcher and extraction loop -/

/-- An input record (`files` element of `analyze_all_sources`); spec §3
SourceFile.  `content = none` models an absent content value. -/
structure SourceFile where
  path : String
  content : Option String
deriving DecidableEq

/-- The external extraction engines `parse_source_file` dispatches to.
`ast_walk` models CPython `ast.parse` + `ast.walk` (`none` = `SyntaxError`);
the other three stand for the regex passes of `parse_javascript`,
`parse_react` and `_parse_generic`, each a function of (content, file_path).
The dispatch theorems below hold for every behaviour of these engines. -/
structure Extractors where
  ast_walk : String → Option (List PyNode)
  parse_javascript : String → String → FileAnalysis
  parse_react : String → String → FileAnalysis
  parse_generic : String → String → FileAnalysis

/-- `parse_source_file(file_path, content)`: route the file to a parser by
extension; `none` models Python's `None` return (content absent, or no
recognized extension). -/
def parse_source_file (E : Extractors) (file_path : String)
    (content : Option String) : Option FileAnalysis :=
  match content with
  | none => none
  | some c =>
    if pyEndsWith file_path ".py" then
      some (parse_python (E.ast_walk c) file_path)
    else if pyEndsWith file_path ".tsx" || pyEndsWith file_path ".jsx" then
      some (E.parse_react c file_path)
    else if pyEndsWith file_path ".js" || pyEndsWith file_path ".ts" then
      some (E.parse_javascript c file_path)
    else if [".java", ".cpp", ".go", ".cs", ".php"].any (pyEndsWith file_path ·) then
      some (E.parse_generic c file_path)
    else
      none

/-- The recognized source extensions of `analyze_all_sources`. -/
def source_extensions : List String :=
  [".py", ".js", ".ts", ".tsx", ".jsx", ".java", ".cpp", ".go", ".cs", ".php"]

/-- The extension computation of `analyze_all_sources` (lines 355–357):
`"." + f["path"].rsplit(".", 1)[-1].lower()` when the basename
(`rsplit("/", 1)[-1]`) contains a dot, else `""`. -/
def fileExt (path : String) : String :=
  if pyIn "." ((pySplitChar '/' path).getLastD path) then
    "." ++ pyLower ((pySplitChar '.' path).getLastD path)
  else ""

/-- The guard of the extraction loop: recognized extension and truthy
content (`f.get("content")` — present and non-empty). -/
def isSourceRecord (f : SourceFile) : Bool :=
  source_extensions.contains (fileExt f.path) &&
    (match f.content with
     | none => false
     | some c => !c.isEmpty)

/-- `analyze_all_sources(files)`: parse every record that passes the guard
and keep the non-`None` results, in input order. -/
def analyze_all_sources (E : Extractors) (files : List SourceFile) : List FileAnalysis :=
  files.foldl
    (fun results f =>
      if isSourceRecord f then
        match parse_source_file E f.path f.content with
        | some parsed => results ++ [parsed]
        | none => results
      else results)
    []

/-! ### `graph_builder.py`

A Python `dict` keyed by strings is embedded as an insertion-ordered
association list: assigning an existing key updates it in place, a new key
is appended (CPython 3.7+ semantics).  The Graphviz toolchain is external:
`_render_graph` is modelled as an oracle `render : String → Option String`
from the diagram name to a PNG path (`none` = rendering unavailable), and
the `dot.node`/`dot.edge` styling calls, which feed only the rendered image,
are absorbed into that oracle.
-/

/-- Adjacency data: an insertion-ordered dict from node id to successor list. -/
abbrev Adj := List (String × List String)

/-- `d[k] = v` on an insertion-ordered dict: update the (unique) existing
slot in place, or append a new one. -/
def dictSet : List (String × List String) → String → List String →
    List (String × List String)
  | [], k, v => [(k, v)]
  | p :: t, k, v => if p.1 = k then (k, v) :: t else p :: dictSet t k v

/-- `d[k]` lookup (`none` = `KeyError`). -/
def dictGet : List (String × List String) → String → Option (List String)
  | [], _ => none
  | p :: t, k => if p.1 = k then some p.2 else dictGet t k

/-- `d[k].append(v)` — extend the (unique) slot of `k` in place (a no-op on
a missing key; every call site sets the key first). -/
def dictAppend : Adj → String → String → Adj
  | [], _, _ => []
  | p :: t, k, v => if p.1 = k then (p.1, p.2 ++ [v]) :: t else p :: dictAppend t k v

/-- `_path_to_module`: separators to dots, first matching extension of the
fixed list stripped. -/
def _path_to_module (path : String) : String :=
  let name := pyReplaceChar '\\' '.' (pyReplaceChar '/' '.' path)
  match [".py", ".js", ".ts", ".tsx", ".jsx", ".java", ".go", ".cs", ".php", ".cpp"].find?
      (fun ext => pyEndsWith name ext) with
  | some ext => pyDropRight name ext.length
  | none => name

/-- The keys of the `module_names` dict of `build_module_dependency_graph`,
in first-insertion order (re-assigning an existing module keeps its slot). -/
def moduleKeys (source_analysis : List FileAnalysis) : List String :=
  source_analysis.foldl
    (fun ks a =>
      let m := _path_to_module a.file_path
      if ks.contains m then ks else ks ++ [m])
    []

/-- The import-token base of lines 43–44: `imp.split(".")[0] if "." in imp
else imp`, then separators replaced by dots. -/
def impBase (imp : String) : String :=
  let b := if pyIn "." imp then (pySplitChar '.' imp).headD "" else imp
  pyReplaceChar '\\' '.' (pyReplaceChar '/' '.' b)

/-- The match test of line 48–49: base-name equality or substring
containment of the import base in the module name. -/
def importMatches (imp_base mod_name : String) : Bool :=
  let mod_base :=
    if pyIn "." mod_name then (pySplitChar '.' mod_name).getLastD "" else mod_name
  imp_base = mod_base || pyIn imp_base mod_name

/-- One iteration of the inner `for mod_name in module_names` loop (lines
47–53): the scan stops at the first module matching the import token
(`break`), and appends an edge only when that module is not the importing
file's own module. -/
def importStep (module_names : List String) (source_module : String)
    (adjacency : Adj) (imp : String) : Adj :=
  match module_names.find? (fun m => importMatches (impBase imp) m) with
  | some mod_name =>
    if mod_name ≠ source_module then dictAppend adjacency source_module mod_name
    else adjacency
  | none => adjacency

/-- The adjacency construction of `build_module_dependency_graph` (lines
37–53): per file, reset `adjacency[source_module] = []`, then process each of
its import tokens. -/
def moduleAdjacency (source_analysis : List FileAnalysis) : Adj :=
  let module_names := moduleKeys source_analysis
  source_analysis.foldl
    (fun adj a =>
      let source_module := _path_to_module a.file_path
      a.imports.foldl (importStep module_names source_module)
        (dictSet adj source_module []))
    []

/-- `build_module_dependency_graph(source_analysis)`: `(png, adjacency)`.
The `if not nodes` early return fires exactly when no file contributed a
module node. -/
def build_module_dependency_graph (render : String → Option String)
    (source_analysis : List FileAnalysis) : Option String × Adj :=
  let adjacency := moduleAdjacency source_analysis
  if (moduleKeys source_analysis).isEmpty then (none, [])
  else (render "module_dependencies", adjacency)

/-- The flat route list of `build_route_flow_graph` (lines 108–114): every
route of every file, tagged with the owning module (`{"file": ..., **route}`). -/
def collectRoutes (source_analysis : List FileAnalysis) : List RouteRec :=
  source_analysis.foldl
    (fun acc a =>
      acc ++ a.routes.map fun r => { r with file := some (_path_to_module a.file_path) })
    []

/-- The node label of a route (lines 159–165): `"<METHOD> <path>"` when a
method is known, else the bare path, which itself defaults to the decorator
text. -/
def routeLabel (route : RouteRec) : String :=
  let method := route.method.getD ""
  let path := route.path.getD (route.decorator.getD "")
  if method ≠ "" then method ++ " " ++ path else path

/-- `build_route_flow_graph(source_analysis)`: `(png, adjacency)`.  The
adjacency starts at `{"API_Gateway": []}` and the label-appending loop runs
over `routes[:30]` (line 158), so the successor list, like the rendered
subset, covers only the first 30 routes. -/
def build_route_flow_graph (render : String → Option String)
    (source_analysis : List FileAnalysis) : Option String × Adj :=
  let routes := collectRoutes source_analysis
  if routes.isEmpty then (none, [])
  else
    let adjacency :=
      (routes.take 30).foldl
        (fun adj route => dictAppend adj "API_Gateway" (routeLabel route))
        [("API_Gateway", [])]
    (render "api_routes", adjacency)

/-- The per-component data of `build_component_graph` (lines 192–200). -/
structure CompData where
  file : String
  hooks : List String
  imports : List String
deriving DecidableEq

/-- `components[comp] = v` — the same insertion-ordered dict assignment as
`dictSet`, at the `CompData` value type. -/
def compSet : List (String × CompData) → String → CompData → List (String × CompData)
  | [], k, v => [(k, v)]
  | p :: t, k, v => if p.1 = k then (k, v) :: t else p :: compSet t k v

/-- The `components` dict of `build_component_graph`: comp name to data,
insertion-ordered, later files overwriting the data of a repeated name. -/
def componentsOf (source_analysis : List FileAnalysis) : List (String × CompData) :=
  source_analysis.foldl
    (fun cd a =>
      a.components.foldl
        (fun cd comp =>
          compSet cd comp
            { file := _path_to_module a.file_path, hooks := a.react_hooks,
              imports := a.imports })
        cd)
    []

/-- The component-scan token base: `imp.rsplit("/", 1)[-1] if "/" in imp else imp`. -/
def compImpBase (imp : String) : String :=
  if pyIn "/" imp then (pySplitChar '/' imp).getLastD "" else imp

/-- One import token's appends in the component-relationship scan (lines
208–212): every other component whose lowercased name equals the lowercased
token basename.  `comp_names = set(components.keys())` iterates in an
order CPython does not specify; the embedding fixes key-insertion order (no
theorem below depends on that choice). -/
def compImportStep (comp_names : List String) (comp_name : String)
    (adjacency : Adj) (imp : String) : Adj :=
  comp_names.foldl
    (fun adj other_comp =>
      if other_comp ≠ comp_name ∧ pyLower other_comp = pyLower (compImpBase imp) then
        dictAppend adj comp_name other_comp
      else adj)
    adjacency

/-- `build_component_graph(source_analysis)`: `(png, adjacency)`.  The
collection loop's interleaved `adjacency[comp] = []` assignments produce one
`[]`-valued slot per component key in key-insertion order (nothing is
appended before the relationship scan), embedded as
`components.map (fun p => (p.1, []))`. -/
def build_component_graph (render : String → Option String)
    (source_analysis : List FileAnalysis) : Option String × Adj :=
  let components := componentsOf source_analysis
  let adjacency : Adj := components.map fun p => (p.1, [])
  if components.isEmpty then (none, [])
  else
    let comp_names := components.map (·.1)
    let adjacency :=
      components.foldl
        (fun adj p => p.2.imports.foldl (compImportStep comp_names p.1) adj)
        adjacency
    (render "component_graph", adjacency)

/-- One graph's slot in the result of `build_all_graphs`. -/
structure GraphResult where
  png : Option String
  adjacency : Adj
deriving DecidableEq

/-- The result dict of `build_all_graphs`. -/
structure AllGraphs where
  module_dependency : GraphResult
  api_routes : GraphResult
  component_graph : GraphResult
deriving DecidableEq

/-- `build_all_graphs(source_analysis)`: each builder call is wrapped in
`try/except Exception: pass`, so its outcome is modelled as an
`Except Unit (Option String × Adj)` value — `.ok` carries the Python return
value, `.error` models the call raising.  A failed slot keeps its
initialised default `{"png": None, "adjacency": {}}`. -/
def build_all_graphs (mdep api comp : Except Unit (Option String × Adj)) : AllGraphs :=
  let d : GraphResult := { png := none, adjacency := [] }
  { module_dependency := match mdep with
      | .ok pa => { png := pa.1, adjacency := pa.2 }
      | .error _ => d
    api_routes := match api with
      | .ok pa => { png := pa.1, adjacency := pa.2 }
      | .error _ => d
    component_graph := match comp with
      | .ok pa => { png := pa.1, adjacency := pa.2 }
      | .error _ => d }

/-! ### `semantic_inference.py`

`generate_description` tests substring membership against Python string
renderings of whole lists (`str(imports)`, `str(functions + components)`,
`str(decorators)`), so those renderings are embedded: `str` of a string is
its repr `'...'` (faithful for strings without quotes, backslashes or
control characters, which CPython would escape), `str` of a function dict
renders the five keys in the insertion order `parse_python` builds them.
-/

/-- Python `repr` of a string as it appears inside `str(list)`. -/
def pyReprStr (s : String) : String :=
  "'" ++ s ++ "'"

/-- Python `str` of a list of strings. -/
def pyStrList (l : List String) : String :=
  "[" ++ pyJoin ", " (l.map pyReprStr) ++ "]"

/-- Python `str` of a function record (dict key-insertion order of
`parse_python`: name, decorators, is_async, line, description). -/
def funcRecStr (f : FuncRec) : String :=
  "\x7b'name': " ++ pyReprStr f.name ++
    ", 'decorators': " ++ pyStrList f.decorators ++
    ", 'is_async': " ++ (if f.is_async then "True" else "False") ++
    ", 'line': " ++ Nat.repr f.line ++
    ", 'description': " ++ pyReprStr f.description ++ "\x7d"

/-- Python `str(functions + components)`. -/
def pyStrFuncsComps (functions : List FuncRec) (components : List String) : String :=
  "[" ++ pyJoin ", " (functions.map funcRecStr ++ components.map pyReprStr) ++ "]"

/-- The data-rendering-pattern test of `generate_description` (line 51):
`"map" in str(functions + components).lower()`. -/
def iterationCond (functions : List FuncRec) (components : List String) : Bool :=
  pyIn "map" (pyLower (pyStrFuncsComps functions components))

/-- The HTTP-client-import test (line 47):
`any(imp in str(imports).lower() for imp in ["axios", "fetch"])`. -/
def httpImportCond (imports : List String) : Bool :=
  ["axios", "fetch"].any fun imp => pyIn imp (pyLower (pyStrList imports))

/-- The iteration-pattern sentence appended on a positive `iterationCond`. -/
def mapMention : String :=
  " It dynamically renders UI elements using array mapping."

/-- The React-component branch of `generate_description` (lines 34–54): the
base sentence followed by the four conditionally appended sentences. -/
def reactComponentDesc (fa : FileAnalysis) : String :=
  "This React functional component named '" ++ fa.components.headD "" ++
      "' is responsible for rendering UI for the related feature." ++
    (if fa.react_hooks.contains "useState" then
      " It uses React Hooks for state management." else "") ++
    (if fa.react_hooks.contains "useEffect" then
      " It uses lifecycle side effects through useEffect." else "") ++
    (if httpImportCond fa.imports then
      " It interacts with backend APIs using HTTP requests." else "") ++
    (if iterationCond fa.functions fa.components then mapMention else "")

/-- A per-function sentence of the JavaScript/TypeScript branch (lines 60–69). -/
def jsFuncSentence (f : FuncRec) : String :=
  if f.is_async then
    "This asynchronous backend function '" ++ f.name ++
      "' likely handles business logic or request processing."
  else
    "This backend function '" ++ f.name ++ "' handles specific application logic."

/-- A per-function sentence of the Python branch (lines 84–94), with the
API-decorator check `any(dec in str(decorators) for dec in [...])`. -/
def pyFuncSentence (f : FuncRec) : String :=
  "This Python function '" ++ f.name ++ "' performs backend data processing logic." ++
    (if ["route", "get", "post", "put", "delete"].any
        (fun dec => pyIn dec (pyStrList f.decorators)) then
      " It is exposed as an API endpoint." else "")

/-- `generate_description(file_analysis)`: the fixed-priority rule list —
component branch, JavaScript/TypeScript function branch, Python function
branch, generic fallback — joined with single spaces.  `list(set(...))` of
the route methods is embedded as first-occurrence dedup (CPython's set
order is unspecified; no theorem depends on it). -/
def generate_description (fa : FileAnalysis) : String :=
  let descriptions : List String :=
    if !fa.components.isEmpty then
      [reactComponentDesc fa]
    else if (fa.language = "JavaScript" ∨ fa.language = "TypeScript") ∧
        !fa.functions.isEmpty then
      let func_descriptions := (fa.functions.take 3).map jsFuncSentence
      let ds := if !func_descriptions.isEmpty then
          [pyJoin " " (func_descriptions.take 2)] else []
      if !fa.routes.isEmpty then
        let route_methods :=
          dedupFirst ((fa.routes.take 3).map fun r => pyUpper (r.method.getD ""))
        if !route_methods.isEmpty then
          ds ++ ["This file defines API endpoints using Express routing with " ++
            pyJoin ", " route_methods ++ " methods."]
        else ds
      else ds
    else if fa.language = "Python" ∧ !fa.functions.isEmpty then
      let func_descriptions := (fa.functions.take 3).map pyFuncSentence
      let ds := if !func_descriptions.isEmpty then
          [pyJoin " " (func_descriptions.take 2)] else []
      if !fa.routes.isEmpty then
        ds ++ ["This module defines " ++ Nat.repr fa.routes.length ++
          " API route(s) for handling HTTP requests."]
      else ds
    else []
  let descriptions :=
    if descriptions.isEmpty then
      if fa.language = "JavaScript" ∨ fa.language = "TypeScript" then
        ["This " ++ fa.language ++ " module contains utility functions and helper methods."]
      else if fa.language = "Python" then
        ["This Python module provides core functionality for the application."]
      else ["This " ++ fa.language ++ " file contains application logic."]
    else descriptions
  pyJoin " " descriptions

/-- `_infer_function_purpose(func_name, language, decorators)`: the fixed
priority chain of name-based heuristics, then the route-decorator check,
then the language-generic fallback, else the empty string. -/
def _infer_function_purpose (func_name language : String) (decorators : List String) :
    String :=
  let name_lower := pyLower func_name
  if pyStartsWith func_name "use" ∧ (language = "JavaScript" ∨ language = "TypeScript") then
    "Custom React hook for managing " ++ pyDrop func_name 3 ++ " state or behavior"
  else if pyStartsWith name_lower "get" ∨ pyStartsWith name_lower "fetch" then
    "Retrieves or fetches data"
  else if pyStartsWith name_lower "create" ∨ pyStartsWith name_lower "add" then
    "Creates or adds new data"
  else if pyStartsWith name_lower "update" ∨ pyStartsWith name_lower "edit" then
    "Updates or modifies existing data"
  else if pyStartsWith name_lower "delete" ∨ pyStartsWith name_lower "remove" then
    "Deletes or removes data"
  else if pyStartsWith name_lower "handle" then
    "Handles " ++ pyDrop func_name 6 ++ " event or action"
  else if pyStartsWith name_lower "on" then
    "Event handler for " ++ pyDrop func_name 2
  else if pyIn "validate" name_lower then "Validates data or input"
  else if pyIn "process" name_lower ∨ pyIn "parse" name_lower then
    "Processes or transforms data"
  else if pyIn "render" name_lower then "Renders UI component or view"
  else if pyIn "init" name_lower ∨ pyIn "setup" name_lower then
    "Initializes or sets up the application or module"
  else if pyIn "login" name_lower ∨ pyIn "auth" name_lower then
    "Handles authentication or authorization"
  else if pyIn "logout" name_lower then "Handles user logout"
  else if pyIn "api" name_lower ∨ pyIn "request" name_lower then
    "Makes API request or handles network communication"
  else if pyIn "save" name_lower ∨ pyIn "store" name_lower then "Saves or stores data"
  else if pyIn "load" name_lower then "Loads data from storage"
  else if pyIn "format" name_lower ∨ pyIn "transform" name_lower then
    "Formats or transforms data"
  else if pyIn "convert" name_lower then "Converts data from one format to another"
  else if pyIn "calculate" name_lower ∨ pyIn "compute" name_lower then
    "Performs calculations or computations"
  else if pyIn "search" name_lower ∨ pyIn "find" name_lower then
    "Searches or finds specific data"
  else if pyIn "filter" name_lower then "Filters data based on criteria"
  else if !decorators.isEmpty ∧
      !(decorators.filter fun d =>
        ["route", "get", "post", "put", "delete", "patch"].any
          fun x => pyIn x (pyLower d)).isEmpty then
    "API endpoint handler function"
  else if language = "JavaScript" ∨ language = "TypeScript" then
    "JavaScript/TypeScript utility function"
  else if language = "Python" then "Python helper function"
  else ""

/-- The per-record body of `enhance_function_descriptions`'s loop with the
pluggable backend absent (`HAS_LOCAL_inference = False`, the reference
build's conditional-import failure path): a record whose description strips
to non-empty is skipped; otherwise the heuristic description is written back
when non-empty. -/
def enhanceFunc (language : String) (func : FuncRec) : FuncRec :=
  if pyStrip func.description ≠ "" then func
  else
    let description := _infer_function_purpose func.name language func.decorators
    if description ≠ "" then { func with description := description } else func

/-- `enhance_function_descriptions(functions, file_path, language,
file_content)` with the pluggable text-generation backend absent: the
in-place mutation loop over the list, returned as the updated list
(`file_path` and `file_content` are never read on this path). -/
def enhance_function_descriptions (functions : List FuncRec)
    (file_path language file_content : String) : List FuncRec :=
  functions.map (enhanceFunc language)

/-! ### Dictionary lemmas -/

theorem dictGet_dictSet_self (d : List (String × List String)) (k : String)
    (v : List String) : dictGet (dictSet d k v) k = some v := by
  induction d with
  | nil => simp [dictSet, dictGet]
  | cons p t ih =>
    by_cases h : p.1 = k
    · simp [dictSet, dictGet, h]
    · simp [dictSet, dictGet, h, ih]

theorem dictGet_dictSet_ne (d : List (String × List String)) (k k' : String)
    (v : List String) (h : k' ≠ k) : dictGet (dictSet d k v) k' = dictGet d k' := by
  have hkk : ¬(k = k') := fun hh => h hh.symm
  induction d with
  | nil => simp [dictSet, dictGet, hkk]
  | cons p t ih =>
    simp only [dictSet]
    by_cases hp : p.1 = k
    · have h2 : ¬(p.1 = k') := by rw [hp]; exact hkk
      rw [if_pos hp]
      simp [dictGet, hkk, h2]
    · rw [if_neg hp]
      by_cases hp' : p.1 = k'
      · simp [dictGet, hp']
      · simp [dictGet, hp', ih]

theorem dictGet_dictAppend_self (d : Adj) (k : String) (w : String)
    (v : List String) (h : dictGet d k = some v) :
    dictGet (dictAppend d k w) k = some (v ++ [w]) := by
  induction d with
  | nil => simp [dictGet] at h
  | cons p t ih =>
    by_cases hp : p.1 = k
    · simp [dictGet, hp] at h
      simp [dictAppend, dictGet, hp, h]
    · simp [dictGet, hp] at h
      simp [dictAppend, dictGet, hp, ih h]

theorem dictGet_dictAppend_ne (d : Adj) (k k' : String) (w : String)
    (h : k' ≠ k) : dictGet (dictAppend d k w) k' = dictGet d k' := by
  induction d with
  | nil => rfl
  | cons p t ih =>
    simp only [dictAppend]
    by_cases hp : p.1 = k
    · have h2 : ¬(p.1 = k') := by rw [hp]; exact fun hh => h hh.symm
      rw [if_pos hp]
      simp [dictGet, h2]
    · rw [if_neg hp]
      by_cases hp' : p.1 = k'
      · simp [dictGet, hp']
      · simp [dictGet, hp', ih]

/-- Folding plain appends at a fixed key extends that key's list. -/
theorem dictGet_foldl_append_self (k : String) :
    ∀ (vs : List String) (d : Adj) (v : List String), dictGet d k = some v →
      dictGet (vs.foldl (fun a w => dictAppend a k w) d) k = some (v ++ vs) := by
  intro vs
  induction vs with
  | nil => intro d v h; simpa using h
  | cons w ws ih =>
    intro d v h
    have := ih (dictAppend d k w) (v ++ [w]) (dictGet_dictAppend_self d k w v h)
    simpa using this

/-- Folding appends at a fixed key leaves every other key unchanged. -/
theorem dictGet_foldl_append_ne (k k' : String) (h : k' ≠ k) :
    ∀ (vs : List String) (d : Adj),
      dictGet (vs.foldl (fun a w => dictAppend a k w) d) k' = dictGet d k' := by
  intro vs
  induction vs with
  | nil => intro d; rfl
  | cons w ws ih =>
    intro d
    rw [List.foldl_cons, ih, dictGet_dictAppend_ne _ _ _ _ h]

/-! ### Theorems for the claims -/

/-- C10: in the module dependency graph builder, the scan over candidate
modules stops at the first matching module (the loop's `break`); when that
first match is the importing file's own module, the import token adds no
edge at all — the adjacency is returned unchanged, and any later module
that would also match is never considered. -/
theorem C10_first_match_own_module_adds_no_edge
    (module_names : List String) (source_module : String) (adjacency : Adj)
    (imp : String)
    (h : module_names.find? (fun m => importMatches (impBase imp) m) =
      some source_module) :
    importStep module_names source_module adjacency imp = adjacency := by
  unfold importStep
  rw [h]
  simp

/-- Witness for C10 at a concrete input: for import token "a" of module "a",
with candidate modules ["a", "ab"], the first match is the source module
itself, so nothing is appended — although the later module "ab" also
matches the token. -/
theorem C10_first_match_own_module_witness :
    importStep ["a", "ab"] "a" [("a", [])] "a" = [("a", [])] ∧
      importMatches (impBase "a") "ab" = true :=
  ⟨C10_first_match_own_module_adds_no_edge ["a", "ab"] "a" [("a", [])] "a" (by decide),
    by decide⟩

/-- C4: when the grammar-based extractor fails to parse the content
(`ast.parse` raises `SyntaxError`, modelled by the walk oracle returning
`none`), `parse_python` returns the freshly initialised `FileAnalysis`
whose classes, functions, components, imports and routes are all empty —
it never propagates the error (the embedding is a total function). -/
theorem C4_parse_failure_empty_analysis
    (ast_walk : String → Option (List PyNode)) (content file_path : String)
    (h : ast_walk content = none) :
    (parse_python (ast_walk content) file_path).classes = [] ∧
      (parse_python (ast_walk content) file_path).functions = [] ∧
      (parse_python (ast_walk content) file_path).components = [] ∧
      (parse_python (ast_walk content) file_path).imports = [] ∧
      (parse_python (ast_walk content) file_path).routes = [] := by
  rw [h]
  exact ⟨rfl, rfl, rfl, rfl, rfl⟩

/-- Witness for C4 at a concrete input: an oracle that rejects every content
(as `ast.parse` rejects `"def ("`). -/
theorem C4_parse_failure_witness :
    (parse_python ((fun _ => none : String → Option (List PyNode)) "def (")
        "bad.py").classes = [] ∧
      (parse_python ((fun _ => none : String → Option (List PyNode)) "def (")
        "bad.py").functions = [] ∧
      (parse_python ((fun _ => none : String → Option (List PyNode)) "def (")
        "bad.py").components = [] ∧
      (parse_python ((fun _ => none : String → Option (List PyNode)) "def (")
        "bad.py").imports = [] ∧
      (parse_python ((fun _ => none : String → Option (List PyNode)) "def (")
        "bad.py").routes = [] :=
  C4_parse_failure_empty_analysis (fun _ => none) "def (" "bad.py" rfl

/-- C6: failure isolation of `build_all_graphs` and of rendering.  A slot
whose builder call raises degrades to the empty default (no image, empty
adjacency); a slot whose call returns keeps exactly its returned image and
adjacency; each slot is independent of the other two outcomes; and for each
of the three builders the returned adjacency map is the same under every
behaviour of the rendering toolchain (rendering failures cost only the
image). -/
theorem C6_graph_failure_isolation
    (x y z x' y' z' : Except Unit (Option String × Adj)) (p : Option String) (a : Adj)
    (r₁ r₂ : String → Option String) (analyses : List FileAnalysis) :
    ((build_all_graphs (Except.error ()) y z).module_dependency =
        { png := none, adjacency := [] } ∧
      (build_all_graphs x (Except.error ()) z).api_routes =
        { png := none, adjacency := [] } ∧
      (build_all_graphs x y (Except.error ())).component_graph =
        { png := none, adjacency := [] }) ∧
    ((build_all_graphs (Except.ok (p, a)) y z).module_dependency =
        { png := p, adjacency := a } ∧
      (build_all_graphs x (Except.ok (p, a)) z).api_routes =
        { png := p, adjacency := a } ∧
      (build_all_graphs x y (Except.ok (p, a))).component_graph =
        { png := p, adjacency := a }) ∧
    ((build_all_graphs x y z).module_dependency =
        (build_all_graphs x y' z').module_dependency ∧
      (build_all_graphs x y z).api_routes = (build_all_graphs x' y z').api_routes ∧
      (build_all_graphs x y z).component_graph =
        (build_all_graphs x' y' z).component_graph) ∧
    ((build_module_dependency_graph r₁ analyses).2 =
        (build_module_dependency_graph r₂ analyses).2 ∧
      (build_route_flow_graph r₁ analyses).2 = (build_route_flow_graph r₂ analyses).2 ∧
      (build_component_graph r₁ analyses).2 = (build_component_graph r₂ analyses).2) := by
  refine ⟨⟨rfl, rfl, rfl⟩, ⟨rfl, rfl, rfl⟩, ⟨rfl, rfl, rfl⟩, ?_, ?_, ?_⟩
  · by_cases h : (moduleKeys analyses).isEmpty <;>
      simp [build_module_dependency_graph, h]
  · by_cases h : (collectRoutes analyses).isEmpty <;>
      simp [build_route_flow_graph, h]
  · by_cases h : (componentsOf analyses).isEmpty <;>
      simp [build_component_graph, h]

/-- C1 (amended): the route graph's full adjacency IS capped at the 30-route
rendering limit: the gateway's successor list holds exactly the labels of
the first 30 collected routes, in order — a route past the 30th contributes
nothing to the returned adjacency (and, with no routes, no gateway key
exists at all). -/
theorem C1_route_adjacency_capped (render : String → Option String)
    (analyses : List FileAnalysis) :
    dictGet (build_route_flow_graph render analyses).2 "API_Gateway" =
      if (collectRoutes analyses).isEmpty then none
      else some (((collectRoutes analyses).take 30).map routeLabel) := by
  by_cases h : (collectRoutes analyses).isEmpty
  · simp [build_route_flow_graph, h, dictGet]
  · have h30 :
        dictGet
          (((collectRoutes analyses).take 30).foldl
            (fun adj route => dictAppend adj "API_Gateway" (routeLabel route))
            [("API_Gateway", [])]) "API_Gateway" =
          some (((collectRoutes analyses).take 30).map routeLabel) := by
      have := dictGet_foldl_append_self "API_Gateway"
        (((collectRoutes analyses).take 30).map routeLabel)
        [("API_Gateway", [])] [] (by simp [dictGet])
      rw [List.foldl_map] at this
      simpa using this
    simpa [build_route_flow_graph, h] using h30

/-- Counterexample to C1 as stated: with 31 discovered routes (30 labelled
"A" and a 31st labelled "B"), the returned adjacency's gateway successor
list holds only the first 30 labels; the 31st route's label "B" is absent. -/
theorem C1_uncapped_adjacency_counterexample :
    (build_route_flow_graph (fun _ => none)
        [{ file_path := "a.py", language := "Python",
           routes := List.replicate 30 { path := some "A" } ++
             [{ path := some "B" }] }]).2 =
      [("API_Gateway", List.replicate 30 "A")] ∧
    routeLabel { path := some "B" } = "B" ∧
    "B" ∉ List.replicate 30 "A" :=
  ⟨by decide, by decide, by decide⟩

/-- Fold accumulation of the extraction loop: a member of the result either
was in the accumulator or is the parse of a guard-passing input record. -/
theorem analyze_foldl_mem (E : Extractors) :
    ∀ (files : List SourceFile) (acc : List FileAnalysis) (a : FileAnalysis),
      a ∈ files.foldl
        (fun results f =>
          if isSourceRecord f then
            match parse_source_file E f.path f.content with
            | some parsed => results ++ [parsed]
            | none => results
          else results) acc →
      a ∈ acc ∨ ∃ f, f ∈ files ∧ isSourceRecord f = true ∧
        parse_source_file E f.path f.content = some a := by
  intro files
  induction files with
  | nil => intro acc a h; exact Or.inl h
  | cons f t ih =>
    intro acc a h
    rw [List.foldl_cons] at h
    rcases ih _ a h with hacc | ⟨g, hg, hrec, hp⟩
    · by_cases hf : isSourceRecord f
      · rcases hpf : parse_source_file E f.path f.content with _ | parsed
        · rw [if_pos hf, hpf] at hacc
          exact Or.inl hacc
        · rw [if_pos hf, hpf] at hacc
          rcases List.mem_append.mp hacc with h1 | h2
          · exact Or.inl h1
          · refine Or.inr ⟨f, List.mem_cons_self f t, hf, ?_⟩
            rw [hpf, List.mem_singleton.mp h2]
      · rw [if_neg hf] at hacc
        exact Or.inl hacc
    · exact Or.inr ⟨g, List.mem_cons_of_mem f hg, hrec, hp⟩

/-- C8: every record the extraction loop emits is the genuine parse of an
input record whose extension is recognized and whose content is present and
non-empty; a record failing either test contributes no `FileAnalysis` (and
hence no graph node), and no placeholder record is ever produced. -/
theorem C8_skip_unrecognized_and_contentless (E : Extractors)
    (files : List SourceFile) (a : FileAnalysis)
    (h : a ∈ analyze_all_sources E files) :
    ∃ f, f ∈ files ∧ isSourceRecord f = true ∧
      parse_source_file E f.path f.content = some a := by
  rcases analyze_foldl_mem E files [] a h with h0 | hex
  · exact absurd h0 (List.not_mem_nil a)
  · exact hex

/-- Concrete stand-in extraction engines for witnesses. -/
def stubExtractors : Extractors where
  ast_walk := fun _ => none
  parse_javascript := fun _ fp => { file_path := fp, language := "JavaScript" }
  parse_react := fun _ fp => { file_path := fp, language := "TypeScript" }
  parse_generic := fun _ fp => { file_path := fp, language := "" }

/-- Witness for C8 at a concrete input: the single emitted analysis of
`[{path := "a.py", content := some "x"}]` traces back to that record. -/
theorem C8_skip_witness :
    ∃ f, f ∈ [({ path := "a.py", content := some "x" } : SourceFile)] ∧
      isSourceRecord f = true ∧
      parse_source_file stubExtractors f.path f.content =
        some (parse_python none "a.py") :=
  C8_skip_unrecognized_and_contentless stubExtractors
    [{ path := "a.py", content := some "x" }] (parse_python none "a.py") (by decide)

/-- C9: enhancing per-function descriptions with the pluggable backend
absent returns a list of the same length in the same order, preserves the
name, decorator list, async flag and line of every record, and returns any
record whose existing description strips to non-empty entirely unchanged —
only blank descriptions can be rewritten. -/
theorem C9_enhance_only_blank_descriptions (functions : List FuncRec)
    (file_path language file_content : String) :
    (enhance_function_descriptions functions file_path language file_content).length =
        functions.length ∧
      List.Forall₂
        (fun f g => g.name = f.name ∧ g.decorators = f.decorators ∧
          g.is_async = f.is_async ∧ g.line = f.line ∧
          (pyStrip f.description ≠ "" → g = f))
        functions (enhance_function_descriptions functions file_path language file_content) := by
  constructor
  · simp [enhance_function_descriptions]
  · unfold enhance_function_descriptions
    induction functions with
    | nil => exact List.Forall₂.nil
    | cons f t ih =>
      rw [List.map_cons]
      refine List.Forall₂.cons ?_ ih
      by_cases h : pyStrip f.description ≠ ""
      · have he : enhanceFunc language f = f := by simp [enhanceFunc, h]
        rw [he]
        exact ⟨rfl, rfl, rfl, rfl, fun _ => rfl⟩
      · by_cases h2 : _infer_function_purpose f.name language f.decorators ≠ ""
        · have he : enhanceFunc language f =
              { f with description := _infer_function_purpose f.name language f.decorators } := by
            simp [enhanceFunc, h, h2]
          rw [he]
          exact ⟨rfl, rfl, rfl, rfl, fun hh => absurd hh h⟩
        · have he : enhanceFunc language f = f := by simp [enhanceFunc, h, h2]
          rw [he]
          exact ⟨rfl, rfl, rfl, rfl, fun _ => rfl⟩

/-! ### Self-edge freedom -/

/-- No key of the adjacency dict lists itself as a successor. -/
def SelfFreeG (d : Adj) : Prop :=
  ∀ k l, dictGet d k = some l → k ∉ l

theorem dictAppend_of_get_none (d : Adj) (k : String) (w : String)
    (h : dictGet d k = none) : dictAppend d k w = d := by
  induction d with
  | nil => rfl
  | cons p t ih =>
    by_cases hp : p.1 = k
    · simp [dictGet, hp] at h
    · simp only [dictGet, hp, if_neg] at h
      simp [dictAppend, hp, ih h]

theorem selfFreeG_dictSet (d : Adj) (k : String) (v : List String)
    (hv : k ∉ v) (h : SelfFreeG d) : SelfFreeG (dictSet d k v) := by
  intro k' l hget
  by_cases hk : k' = k
  · subst hk
    rw [dictGet_dictSet_self] at hget
    cases hget
    exact hv
  · rw [dictGet_dictSet_ne _ _ _ _ hk] at hget
    exact h k' l hget

theorem selfFreeG_dictAppend (d : Adj) (k : String) (w : String)
    (hw : w ≠ k) (h : SelfFreeG d) : SelfFreeG (dictAppend d k w) := by
  intro k' l hget
  by_cases hk : k' = k
  · subst hk
    cases hv : dictGet d k' with
    | none => rw [dictAppend_of_get_none d k' w hv, hv] at hget; cases hget
    | some v =>
      rw [dictGet_dictAppend_self d k' w v hv] at hget
      cases hget
      intro hmem
      rcases List.mem_append.mp hmem with h1 | h2
      · exact h k' v hv h1
      · exact hw (List.mem_singleton.mp h2).symm
  · rw [dictGet_dictAppend_ne _ _ _ _ hk] at hget
    exact h k' l hget

theorem selfFreeG_foldl {β : Type} (f : Adj → β → Adj)
    (hf : ∀ adj b, SelfFreeG adj → SelfFreeG (f adj b)) :
    ∀ (l : List β) (adj : Adj), SelfFreeG adj → SelfFreeG (l.foldl f adj) := by
  intro l
  induction l with
  | nil => intro adj h; exact h
  | cons b t ih =>
    intro adj h
    rw [List.foldl_cons]
    exact ih (f adj b) (hf adj b h)

theorem selfFreeG_importStep (keys : List String) (src : String) (adj : Adj)
    (imp : String) (h : SelfFreeG adj) : SelfFreeG (importStep keys src adj imp) := by
  unfold importStep
  cases hfind : keys.find? (fun m => importMatches (impBase imp) m) with
  | none => exact h
  | some m =>
    show SelfFreeG (if m ≠ src then dictAppend adj src m else adj)
    by_cases hm : m ≠ src
    · rw [if_pos hm]
      exact selfFreeG_dictAppend adj src m hm h
    · rw [if_neg hm]
      exact h

theorem selfFreeG_moduleAdjacency (analyses : List FileAnalysis) :
    SelfFreeG (moduleAdjacency analyses) := by
  unfold moduleAdjacency
  refine selfFreeG_foldl _ ?_ analyses [] ?_
  · intro adj a h
    refine selfFreeG_foldl _ ?_ a.imports _ ?_
    · intro adj' imp h'
      exact selfFreeG_importStep _ _ adj' imp h'
    · exact selfFreeG_dictSet adj _ [] (List.not_mem_nil _) h
  · intro k l hget
    cases hget

theorem selfFreeG_compImportStep (names : List String) (comp : String) (adj : Adj)
    (imp : String) (h : SelfFreeG adj) : SelfFreeG (compImportStep names comp adj imp) := by
  unfold compImportStep
  refine selfFreeG_foldl _ ?_ names adj h
  intro adj' oc h'
  by_cases hc : oc ≠ comp ∧ pyLower oc = pyLower (compImpBase imp)
  · rw [if_pos hc]
    exact selfFreeG_dictAppend adj' comp oc hc.1 h'
  · rw [if_neg hc]
    exact h'

theorem selfFreeG_compInit (d : List (String × CompData)) :
    SelfFreeG (d.map fun p => (p.1, ([] : List String))) := by
  intro k l hget
  induction d with
  | nil => cases hget
  | cons p t ih =>
    rw [List.map_cons] at hget
    by_cases hp : p.1 = k
    · simp only [dictGet, hp, if_pos] at hget
      cases hget
      exact List.not_mem_nil k
    · simp only [dictGet, hp, if_neg, not_false_iff] at hget
      exact ih hget

/-- C3: neither the module dependency graph's nor the component graph's
returned adjacency map is self-referential — no node identifier appears in
its own successor list. -/
theorem C3_no_self_edges (render : String → Option String)
    (analyses : List FileAnalysis) (k : String) (l : List String) :
    (dictGet (build_module_dependency_graph render analyses).2 k = some l → k ∉ l) ∧
      (dictGet (build_component_graph render analyses).2 k = some l → k ∉ l) := by
  constructor
  · intro hget
    by_cases h : (moduleKeys analyses).isEmpty
    · simp [build_module_dependency_graph, h, dictGet] at hget
    · have h2 : (build_module_dependency_graph render analyses).2 =
          moduleAdjacency analyses := by
        simp [build_module_dependency_graph, h]
      rw [h2] at hget
      exact selfFreeG_moduleAdjacency analyses k l hget
  · intro hget
    by_cases h : (componentsOf analyses).isEmpty
    · simp [build_component_graph, h, dictGet] at hget
    · have h2 : (build_component_graph render analyses).2 =
          (componentsOf analyses).foldl
            (fun adj p => p.2.imports.foldl (compImportStep ((componentsOf analyses).map (·.1)) p.1) adj)
            ((componentsOf analyses).map fun p => (p.1, [])) := by
        simp [build_component_graph, h]
      rw [h2] at hget
      refine selfFreeG_foldl _ ?_ (componentsOf analyses) _
        (selfFreeG_compInit (componentsOf analyses)) k l hget
      intro adj p hadj
      exact selfFreeG_foldl _
        (fun adj' imp h' => selfFreeG_compImportStep _ p.1 adj' imp h')
        p.2.imports adj hadj

/-! ### Class extraction characterization -/

/-- The class record a walked node contributes, if any. -/
def classRecOf : PyNode → Option ClassRec
  | .classDef n b d l =>
    some { name := n, bases := classBases b, decorators := classDecorators d, line := l }
  | _ => none

theorem foldl_parsePyNode_classes :
    ∀ (nodes : List PyNode) (r : FileAnalysis),
      (nodes.foldl parsePyNode r).classes = r.classes ++ nodes.filterMap classRecOf := by
  intro nodes
  induction nodes with
  | nil => intro r; simp
  | cons n t ih =>
    intro r
    rw [List.foldl_cons, ih]
    cases n with
    | classDef nm bs ds ln => simp [parsePyNode, classRecOf]
    | functionDef nm ds ln doc ia => simp [parsePyNode, classRecOf]
    | importStmt ns => simp [parsePyNode, classRecOf]
    | importFrom m ns => simp [parsePyNode, classRecOf]
    | otherNode => simp [parsePyNode, classRecOf]

/-- C5 (amended): on a valid parse, the recorded class list is exactly one
record per walked `ClassDef`, and every recorded base-class string is either
the identifier of a plain `Name` base or the raw `ast.dump` rendering of a
dotted `Attribute` base — dotted bases are NOT flattened to a dotted string
(only function decorators go through the flattening helper). -/
theorem C5_dotted_bases_recorded_as_ast_dump (nodes : List PyNode) (fp : String) :
    (parse_python (some nodes) fp).classes = nodes.filterMap classRecOf ∧
      ∀ (bs : List PyExpr) (b : String), b ∈ classBases bs →
        (∃ i, PyExpr.name i ∈ bs ∧ b = i) ∨
        (∃ v a, PyExpr.attr v a ∈ bs ∧ b = astDump (PyExpr.attr v a)) := by
  constructor
  · show ((nodes.foldl parsePyNode
        { file_path := fp, language := "Python" } : FileAnalysis).classes : List ClassRec) =
        nodes.filterMap classRecOf
    rw [foldl_parsePyNode_classes]
    rfl
  · intro bs b hb
    rcases List.mem_filterMap.mp hb with ⟨e, he, hfe⟩
    cases e with
    | name i =>
      left
      exact ⟨i, he, (Option.some_inj.mp hfe).symm⟩
    | attr v a =>
      right
      exact ⟨v, a, he, (Option.some_inj.mp hfe).symm⟩
    | call f => cases hfe
    | otherExpr => cases hfe

/-- Counterexample to C5 as stated: a class with the dotted base
`module.Base` is recorded with the raw AST dump string, which differs from
the flattened dotted string `"module.Base"`. -/
theorem C5_raw_ast_base_counterexample :
    (parse_python
        (some [PyNode.classDef "C" [PyExpr.attr (PyExpr.name "module") "Base"] [] 1])
        "m.py").classes =
      [{ name := "C",
         bases := ["Attribute(value=Name(id='module', ctx=Load()), attr='Base', ctx=Load())"],
         decorators := [], line := 1 }] ∧
    "Attribute(value=Name(id='module', ctx=Load()), attr='Base', ctx=Load())" ≠
      "module.Base" :=
  ⟨by decide, by decide⟩

/-! ### Successor-list characterization (module and component graphs) -/

/-- The module, if any, that one import token contributes as a successor:
the first scan match, kept when it differs from the importing module. -/
def importTarget (module_names : List String) (source_module : String)
    (imp : String) : Option String :=
  match module_names.find? (fun m => importMatches (impBase imp) m) with
  | some mod_name => if mod_name ≠ source_module then some mod_name else none
  | none => none

/-- The components one import token contributes as successors of
`comp_name`: every other component whose lowercased name equals the token's
lowercased basename, in scan order. -/
def compTargets (comp_names : List String) (comp_name : String) (imp : String) :
    List String :=
  comp_names.filter fun oc => oc ≠ comp_name ∧ pyLower oc = pyLower (compImpBase imp)

theorem importStep_eq_target (keys : List String) (src : String) (adj : Adj)
    (imp : String) :
    importStep keys src adj imp =
      match importTarget keys src imp with
      | some w => dictAppend adj src w
      | none => adj := by
  unfold importStep importTarget
  cases hfind : keys.find? (fun m => importMatches (impBase imp) m) with
  | none => rfl
  | some m =>
    by_cases hm : m ≠ src
    · simp [hm]
    · simp [hm]

theorem foldl_importStep_eq (keys : List String) (src : String) :
    ∀ (imps : List String) (adj : Adj),
      imps.foldl (importStep keys src) adj =
        (imps.filterMap (importTarget keys src)).foldl
          (fun a w => dictAppend a src w) adj := by
  intro imps
  induction imps with
  | nil => intro adj; rfl
  | cons imp t ih =>
    intro adj
    rw [List.foldl_cons, importStep_eq_target]
    cases htg : importTarget keys src imp with
    | none => simp [List.filterMap_cons, htg, ih]
    | some w => simp [List.filterMap_cons, htg, ih]

/-- The per-file step of the module adjacency fold. -/
def moduleStep (keys : List String) (adj : Adj) (a : FileAnalysis) : Adj :=
  a.imports.foldl (importStep keys (_path_to_module a.file_path))
    (dictSet adj (_path_to_module a.file_path) [])

theorem moduleAdjacency_eq_foldl (analyses : List FileAnalysis) :
    moduleAdjacency analyses =
      analyses.foldl (moduleStep (moduleKeys analyses)) [] := rfl

theorem moduleStep_get_ne (keys : List String) (adj : Adj) (b : FileAnalysis)
    (k : String) (hk : _path_to_module b.file_path ≠ k) :
    dictGet (moduleStep keys adj b) k = dictGet adj k := by
  unfold moduleStep
  rw [foldl_importStep_eq,
    dictGet_foldl_append_ne _ _ (fun hh => hk hh.symm),
    dictGet_dictSet_ne _ _ _ _ (fun hh => hk hh.symm)]

theorem moduleFold_frame (keys : List String) (k : String) :
    ∀ (l : List FileAnalysis) (adj : Adj),
      (∀ x ∈ l, _path_to_module x.file_path ≠ k) →
      dictGet (l.foldl (moduleStep keys) adj) k = dictGet adj k := by
  intro l
  induction l with
  | nil => intro adj _; rfl
  | cons b t ih =>
    intro adj hall
    rw [List.foldl_cons, ih _ (fun x hx => hall x (List.mem_cons_of_mem b hx)),
      moduleStep_get_ne _ _ _ _ (hall b (List.mem_cons_self b t))]

theorem moduleFold_get (keys : List String) :
    ∀ (l : List FileAnalysis) (adj : Adj) (a : FileAnalysis), a ∈ l →
      (l.map fun x => _path_to_module x.file_path).Nodup →
      dictGet (l.foldl (moduleStep keys) adj) (_path_to_module a.file_path) =
        some (a.imports.filterMap
          (importTarget keys (_path_to_module a.file_path))) := by
  intro l
  induction l with
  | nil => intro adj a ha; exact absurd ha (List.not_mem_nil a)
  | cons b t ih =>
    intro adj a ha hnd
    rw [List.map_cons, List.nodup_cons] at hnd
    rw [List.foldl_cons]
    rcases List.mem_cons.mp ha with hab | hat
    · subst hab
      have hnotin : ∀ x ∈ t, _path_to_module x.file_path ≠ _path_to_module a.file_path := by
        intro x hx hcontra
        exact hnd.1 (hcontra ▸ List.mem_map_of_mem (fun y => _path_to_module y.file_path) hx)
      rw [moduleFold_frame keys _ t _ hnotin]
      unfold moduleStep
      rw [foldl_importStep_eq]
      have h0 : dictGet (dictSet adj (_path_to_module a.file_path) [])
          (_path_to_module a.file_path) = some [] := dictGet_dictSet_self _ _ _
      simpa using dictGet_foldl_append_self _ _ _ [] h0
    · exact ih _ a hat hnd.2

theorem moduleKeys_ne_nil :
    ∀ (analyses : List FileAnalysis), analyses ≠ [] → moduleKeys analyses ≠ [] := by
  have step : ∀ (l : List FileAnalysis) (ks : List String), ks ≠ [] →
      l.foldl (fun ks a =>
        if ks.contains (_path_to_module a.file_path) then ks
        else ks ++ [_path_to_module a.file_path]) ks ≠ [] := by
    intro l
    induction l with
    | nil => intro ks h; exact h
    | cons b t ih =>
      intro ks h
      rw [List.foldl_cons]
      by_cases hc : ks.contains (_path_to_module b.file_path)
      · rw [if_pos hc]; exact ih ks h
      · rw [if_neg hc]
        exact ih _ (by simp)
  intro analyses h
  cases analyses with
  | nil => exact absurd rfl h
  | cons b t =>
    show (b :: t).foldl _ [] ≠ []
    rw [List.foldl_cons]
    exact step t _ (by simp)

/-- The module adjacency at a file's own module, with pairwise-distinct
module names: exactly the per-token first-match targets, in token order. -/
theorem moduleAdjacency_get (analyses : List FileAnalysis)
    (hnd : (analyses.map fun x => _path_to_module x.file_path).Nodup)
    (a : FileAnalysis) (ha : a ∈ analyses) :
    dictGet (moduleAdjacency analyses) (_path_to_module a.file_path) =
      some (a.imports.filterMap
        (importTarget (moduleKeys analyses) (_path_to_module a.file_path))) := by
  rw [moduleAdjacency_eq_foldl]
  exact moduleFold_get (moduleKeys analyses) analyses [] a ha hnd

theorem compImportStep_eq (names : List String) (comp : String) :
    ∀ (adj : Adj) (imp : String),
      compImportStep names comp adj imp =
        (compTargets names comp imp).foldl (fun a w => dictAppend a comp w) adj := by
  unfold compImportStep compTargets
  intro adj imp
  induction names generalizing adj with
  | nil => rfl
  | cons oc t ih =>
    rw [List.foldl_cons, List.filter_cons]
    by_cases hoc : oc ≠ comp ∧ pyLower oc = pyLower (compImpBase imp)
    · rw [if_pos hoc, if_pos (decide_eq_true hoc), List.foldl_cons]
      exact ih _
    · rw [if_neg hoc, if_neg (by rw [decide_eq_true_eq]; exact hoc)]
      exact ih _

theorem foldl_compImportStep_eq (names : List String) (comp : String) :
    ∀ (imps : List String) (adj : Adj),
      imps.foldl (compImportStep names comp) adj =
        (imps.flatMap (compTargets names comp)).foldl
          (fun a w => dictAppend a comp w) adj := by
  intro imps
  induction imps with
  | nil => intro adj; rfl
  | cons imp t ih =>
    intro adj
    rw [List.foldl_cons, List.flatMap_cons, List.foldl_append, compImportStep_eq, ih]

/-- The per-component step of the component relationship scan. -/
def compStep (names : List String) (adj : Adj) (p : String × CompData) : Adj :=
  p.2.imports.foldl (compImportStep names p.1) adj

theorem compStep_get_ne (names : List String) (adj : Adj) (p : String × CompData)
    (k : String) (hk : p.1 ≠ k) :
    dictGet (compStep names adj p) k = dictGet adj k := by
  unfold compStep
  rw [foldl_compImportStep_eq, dictGet_foldl_append_ne _ _ (fun hh => hk hh.symm)]

theorem compFold_frame (names : List String) (k : String) :
    ∀ (l : List (String × CompData)) (adj : Adj),
      (∀ p ∈ l, p.1 ≠ k) →
      dictGet (l.foldl (compStep names) adj) k = dictGet adj k := by
  intro l
  induction l with
  | nil => intro adj _; rfl
  | cons p t ih =>
    intro adj hall
    rw [List.foldl_cons, ih _ (fun x hx => hall x (List.mem_cons_of_mem p hx)),
      compStep_get_ne _ _ _ _ (hall p (List.mem_cons_self p t))]

theorem compFold_get (names : List String) :
    ∀ (l : List (String × CompData)) (adj : Adj) (k : String) (cd : CompData)
      (v : List String),
      (l.map (·.1)).Nodup → (k, cd) ∈ l → dictGet adj k = some v →
      dictGet (l.foldl (compStep names) adj) k =
        some (v ++ cd.imports.flatMap (compTargets names k)) := by
  intro l
  induction l with
  | nil => intro adj k cd v _ hmem; exact absurd hmem (List.not_mem_nil _)
  | cons p t ih =>
    intro adj k cd v hnd hmem hv
    rw [List.map_cons, List.nodup_cons] at hnd
    rw [List.foldl_cons]
    rcases List.mem_cons.mp hmem with hpk | hint
    · have hk : p.1 = k := by rw [← hpk]
      have hcd : p.2 = cd := by rw [← hpk]
      have hnotin : ∀ q ∈ t, q.1 ≠ k := by
        intro q hq hcontra
        exact hnd.1 (hk ▸ hcontra ▸ List.mem_map_of_mem (·.1) hq)
      rw [compFold_frame names k t _ hnotin]
      unfold compStep
      rw [hk, hcd, foldl_compImportStep_eq]
      exact dictGet_foldl_append_self _ _ _ v hv
    · have hpk : p.1 ≠ k := by
        intro hcontra
        exact hnd.1 (hcontra ▸ List.mem_map_of_mem (·.1) hint)
      refine ih _ k cd v hnd.2 hint ?_
      rw [compStep_get_ne _ _ _ _ hpk]
      exact hv

theorem compSet_keys (k : String) (vv : CompData) :
    ∀ (d : List (String × CompData)),
      (compSet d k vv).map (·.1) =
        if (d.map (·.1)).contains k then d.map (·.1) else d.map (·.1) ++ [k] := by
  intro d
  induction d with
  | nil => simp [compSet]
  | cons p t ih =>
    by_cases hp : p.1 = k
    · simp [compSet, hp]
    · have hne : ¬(k = p.1) := fun hh => hp hh.symm
      have hbeq : (k == p.1) = false := by simp [hne]
      simp only [compSet, if_neg hp, List.map_cons, List.contains_cons, ih, hbeq,
        Bool.false_or]
      by_cases hc : (t.map (·.1)).contains k
      · rw [if_pos hc, if_pos hc]
      · rw [if_neg hc, if_neg hc, List.cons_append]

theorem compSet_keys_nodup (d : List (String × CompData)) (k : String) (vv : CompData)
    (h : (d.map (·.1)).Nodup) : ((compSet d k vv).map (·.1)).Nodup := by
  rw [compSet_keys]
  by_cases hc : (d.map (·.1)).contains k
  · rw [if_pos hc]; exact h
  · rw [if_neg hc]
    have hk : k ∉ d.map (·.1) := by
      intro hmem
      exact hc (by simpa using hmem)
    exact List.Nodup.append h (List.nodup_singleton k)
      (by intro x hx hy; rw [List.mem_singleton.mp hy] at hx; exact hk hx)

theorem componentsOf_keys_nodup (analyses : List FileAnalysis) :
    ((componentsOf analyses).map (·.1)).Nodup := by
  unfold componentsOf
  have inner : ∀ (comps : List String) (a : FileAnalysis)
      (cd : List (String × CompData)), (cd.map (·.1)).Nodup →
      ((comps.foldl (fun cd comp => compSet cd comp
        { file := _path_to_module a.file_path, hooks := a.react_hooks,
          imports := a.imports }) cd).map (·.1)).Nodup := by
    intro comps a
    induction comps with
    | nil => intro cd h; exact h
    | cons c t ih =>
      intro cd h
      rw [List.foldl_cons]
      exact ih _ (compSet_keys_nodup cd c _ h)
  have outer : ∀ (l : List FileAnalysis) (cd : List (String × CompData)),
      (cd.map (·.1)).Nodup →
      ((l.foldl (fun cd a => a.components.foldl (fun cd comp => compSet cd comp
        { file := _path_to_module a.file_path, hooks := a.react_hooks,
          imports := a.imports }) cd) cd).map (·.1)).Nodup := by
    intro l
    induction l with
    | nil => intro cd h; exact h
    | cons b t ih =>
      intro cd h
      rw [List.foldl_cons]
      exact ih _ (inner b.components b cd h)
  exact outer analyses [] (by simp)

theorem dictGet_compInit (k : String) :
    ∀ (d : List (String × CompData)), k ∈ d.map (·.1) →
      dictGet (d.map fun p => (p.1, [])) k = some [] := by
  intro d
  induction d with
  | nil => intro h; exact absurd h (List.not_mem_nil k)
  | cons p t ih =>
    intro h
    by_cases hp : p.1 = k
    · simp [dictGet, hp]
    · rw [List.map_cons, List.mem_cons] at h
      rcases h with h1 | h2
      · exact absurd h1.symm hp
      · simp only [List.map_cons, dictGet, hp, if_neg, not_false_iff]
        exact ih h2

/-- C2 (amended): successor lists preserve insertion order but duplicates
are NOT removed.  In the module graph (under pairwise-distinct module
names) a file's successor list is exactly one entry per import token whose
first scan match is a different module, in token order — several tokens
resolving to the same module yield repeated entries.  In the component
graph a component's successor list is exactly, per import token in order,
every other component whose lowercased name equals the token's lowercased
basename — again with repetitions across tokens. -/
theorem C2_successor_lists_per_token (render : String → Option String)
    (analyses : List FileAnalysis) :
    ((analyses.map fun x => _path_to_module x.file_path).Nodup →
      ∀ a ∈ analyses,
        dictGet (build_module_dependency_graph render analyses).2
            (_path_to_module a.file_path) =
          some (a.imports.filterMap
            (importTarget (moduleKeys analyses) (_path_to_module a.file_path)))) ∧
    (∀ (k : String) (cd : CompData), (k, cd) ∈ componentsOf analyses →
      dictGet (build_component_graph render analyses).2 k =
        some (cd.imports.flatMap
          (compTargets ((componentsOf analyses).map (·.1)) k))) := by
  constructor
  · intro hnd a ha
    have hne : analyses ≠ [] := by
      intro hz; rw [hz] at ha; exact (List.not_mem_nil a) ha
    have hkeys : ¬(moduleKeys analyses).isEmpty = true := by
      rw [List.isEmpty_iff]
      exact moduleKeys_ne_nil analyses hne
    have h2 : (build_module_dependency_graph render analyses).2 =
        moduleAdjacency analyses := by
      simp [build_module_dependency_graph, hkeys]
    rw [h2]
    exact moduleAdjacency_get analyses hnd a ha
  · intro k cd hmem
    have hne : ¬(componentsOf analyses).isEmpty = true := by
      rw [List.isEmpty_iff]
      intro hz
      rw [hz] at hmem
      exact (List.not_mem_nil _) hmem
    have h2 : (build_component_graph render analyses).2 =
        (componentsOf analyses).foldl
          (compStep ((componentsOf analyses).map (·.1)))
          ((componentsOf analyses).map fun p => (p.1, [])) := by
      simp only [build_component_graph, hne, Bool.false_eq_true, if_false]
      rfl
    rw [h2]
    have h0 : dictGet ((componentsOf analyses).map fun p => (p.1, [])) k = some [] :=
      dictGet_compInit k (componentsOf analyses)
        (List.mem_map_of_mem (·.1) hmem)
    simpa using compFold_get ((componentsOf analyses).map (·.1))
      (componentsOf analyses) _ k cd [] (componentsOf_keys_nodup analyses) hmem h0

/-- Counterexample to C2 as stated: a file importing both "utils" and
"utils.x" gets the module "utils" appended twice — its successor list in
the returned module adjacency is not duplicate-free. -/
theorem C2_duplicate_successor_counterexample :
    dictGet (build_module_dependency_graph (fun _ => none)
        [{ file_path := "a.py", language := "Python", imports := ["utils", "utils.x"] },
         { file_path := "utils.py", language := "Python" }]).2 "a" =
      some ["utils", "utils"] ∧
    ¬(["utils", "utils"] : List String).Nodup :=
  ⟨by decide, by decide⟩

/-! ### The iteration-pattern mention of `generate_description` -/

theorem toList_app (s t : String) : (s ++ t).toList = s.toList ++ t.toList := by
  simp [String.toList]

theorem toList_empty : ("" : String).toList = [] := rfl

theorem suffix_of_append_suffix {α : Type} (l x t : List α)
    (hlen : l.length ≤ t.length) (h : l <:+ x ++ t) : l <:+ t := by
  obtain ⟨w, hw⟩ := h
  have hlen2 : w.length + l.length = x.length + t.length := by
    have hc := congrArg List.length hw
    simpa using hc
  have hwlen : w.length = x.length + (t.length - l.length) := by omega
  have hdrop : (x ++ t).drop w.length = l := by
    rw [← hw, List.drop_left]
  have hdrop2 : (x ++ t).drop w.length = t.drop (t.length - l.length) := by
    rw [hwlen, List.drop_append]
  refine ⟨t.take (t.length - l.length), ?_⟩
  calc t.take (t.length - l.length) ++ l
      = t.take (t.length - l.length) ++ t.drop (t.length - l.length) := by
        rw [← hdrop2, hdrop]
    _ = t := List.take_append_drop _ t

theorem not_suffix_through (M x c t : List Char) (hMt : M.length ≤ t.length)
    (hnot : ¬M <:+ t) : ¬M <:+ x ++ (c ++ t) := by
  intro h
  have hlen1 : M.length ≤ (c ++ t).length := by
    rw [List.length_append]; omega
  exact hnot (suffix_of_append_suffix M c t hMt
    (suffix_of_append_suffix M x (c ++ t) hlen1 h))

theorem generate_description_components (fa : FileAnalysis)
    (h : fa.components ≠ []) : generate_description fa = reactComponentDesc fa := by
  have h1 : fa.components.isEmpty = false := by
    cases hc : fa.components with
    | nil => exact absurd hc h
    | cons a t => rfl
  simp [generate_description, h1, pyJoin]

/-- C7 (amended): for a file with at least one component, the description
carries the iteration-pattern (array-mapping) sentence — as its final
segment — if and only if "map" occurs in the lowercased Python string
rendering of the concatenated function records and component names
(`str(functions + components).lower()`), which includes decorator lists and
descriptions, not only the function and component names. -/
theorem C7_iteration_mention_iff_serialized (fa : FileAnalysis)
    (h : fa.components ≠ []) :
    (mapMention.toList <:+ (generate_description fa).toList) ↔
      iterationCond fa.functions fa.components = true := by
  rw [generate_description_components fa h]
  unfold reactComponentDesc
  constructor
  · intro hs
    cases hq : iterationCond fa.functions fa.components with
    | true => rfl
    | false =>
      exfalso
      cases hb1 : fa.react_hooks.contains "useState" <;>
        cases hb2 : fa.react_hooks.contains "useEffect" <;>
          cases hb3 : httpImportCond fa.imports <;>
            simp only [hq, hb1, hb2, hb3, if_true, if_false, Bool.false_eq_true,
              toList_app, toList_empty, List.append_nil, List.nil_append,
              List.append_assoc] at hs <;>
            exact not_suffix_through _ _ _ _ (by decide) (by decide) hs
  · intro hq
    simp only [hq, if_true]
    rw [toList_app]
    exact List.suffix_append _ _

/-- Witness for C7 at a concrete input (one component, no functions). -/
theorem C7_iteration_mention_witness :
    (mapMention.toList <:+ (generate_description
        { file_path := "a.tsx", language := "TypeScript",
          components := ["App"] }).toList) ↔
      iterationCond [] ["App"] = true :=
  C7_iteration_mention_iff_serialized
    { file_path := "a.tsx", language := "TypeScript", components := ["App"] }
    (by decide)

/-- Counterexample to C7 as stated: no function or component NAME contains
"map", yet the description carries the array-mapping mention, because the
code tests the serialized records — here the word "map" sits in a function's
description field. -/
theorem C7_names_only_counterexample :
    (((([{ name := "f", description := "map items" }] : List FuncRec).map
          FuncRec.name) ++ ["Foo"]).any fun n => pyIn "map" (pyLower n)) = false ∧
    mapMention.toList <:+ (generate_description
      { file_path := "a.tsx", language := "TypeScript", components := ["Foo"],
        functions := [{ name := "f", description := "map items" }] }).toList :=
  ⟨by decide, by decide⟩

end RepoIntel
